import Mathlib

/-!
Verification of the conditional-chain-to-switch transformer and the
occurrence classifier of the abracadabra refactoring library.

The definitions below shallowly embed the code of
`src/refactorings/convert-if-else-to-switch/convert-if-else-to-switch.ts`
(the `IfElseToSwitch` class, `updateCode`, `hasIfElseToConvert`,
`hasChildWhichMatchesSelection`) and of the occurrence classifier
(`createOccurrence`, `MemberExpressionOccurrence`,
`PartialTemplateLiteralOccurrence`) that shares the same source file.

Capabilities the source imports from modules that are not part of the
visible sources (the `ast` helpers, the `Selection`/`Position` editor
model, the `Parts` splitter and the `Variable` classes) are modelled
from the specification; each such definition carries a doc comment
starting with `Modelled from the spec:`.
-/

/-- Line/character position in the document (editor `Position` model,
spec section 3: "(line, character)"). -/
structure Position where
  line : Nat
  character : Nat
deriving DecidableEq

/-- Modelled from the spec: positions are ordered first by line, then by
character (spec section 3, Position/Selection model). -/
def Position.isBeforeOrEqual (p q : Position) : Bool :=
  decide (p.line < q.line ∨ (p.line = q.line ∧ p.character ≤ q.character))

/-- Source range of a node (`SourceLocation`): an ordered pair of
positions.  The source field named `end` is called `stop` here because
`end` is a reserved word in Lean. -/
structure SourceLocation where
  start : Position
  stop : Position
deriving DecidableEq

/-- Selection: ordered pair of positions (spec section 3).  The source
field named `end` is called `stop` here because `end` is reserved. -/
structure Selection where
  start : Position
  stop : Position
deriving DecidableEq

/-- Selection built from an AST source location (editor `Selection.fromAST`). -/
def Selection.fromAST (l : SourceLocation) : Selection :=
  ⟨l.start, l.stop⟩

/-- Modelled from the spec: containment test of one selection inside
another (spec section 3: "containment tests against a node's source
range"). -/
def Selection.isInside (s outer : Selection) : Bool :=
  outer.start.isBeforeOrEqual s.start && s.stop.isBeforeOrEqual outer.stop

/-- Modelled from the spec: `selection.isInsidePath(path)` — the
selection lies within the node's source range; a node without a source
range never contains a selection (spec sections 2 and 3:
"selection-to-node containment tests"). -/
def Selection.isInsideLoc (s : Selection) : Option SourceLocation → Bool
  | some l => s.isInside (Selection.fromAST l)
  | none => false

/-- Modelled from the spec: multi-line classification of a selection
(spec section 3: "single-line/multi-line classification"). -/
def Selection.isMultiLines (s : Selection) : Bool :=
  decide (s.start.line ≠ s.stop.line)

/-- Modelled from the spec: emptiness of a selection (spec section 3). -/
def Selection.isEmpty (s : Selection) : Bool :=
  decide (s.start = s.stop)

/-! ### Expressions and statements (syntax-tree abstraction, spec section 3) -/

/-- Expression nodes relevant to the conditional-to-switch transform:
identifiers, literals, member accesses and binary operations. -/
inductive Expr where
  | ident (name : String)
  | strLit (value : String)
  | numLit (value : Int)
  | boolLit (value : Bool)
  | member (object : Expr) (property : String) (computed : Bool)
  | binop (op : String) (left : Expr) (right : Expr)
deriving DecidableEq

/-- Modelled from the spec: literal recognizer used by the
equality-decomposition capability (spec section 4.1 step 2: "an equality
comparison between some sub-expression and a literal"). -/
def isLiteralExpr : Expr → Bool
  | .strLit _ => true
  | .numLit _ => true
  | .boolLit _ => true
  | _ => false

/-- Result of `ast.toSwitch`: a (discriminant, case-value) pair. -/
structure SwitchablePair where
  discriminant : Expr
  test : Expr
deriving DecidableEq

/-- Modelled from the spec: `ast.toSwitch` decomposes a test expression
into a (discriminant, case-value) pair, recognizing a strict-equality
comparison between some sub-expression and a literal, either operand
order (spec section 4.1 step 2 and section 9: "support `expr === literal`
and `literal === expr`"). -/
def toSwitch : Expr → Option SwitchablePair
  | .binop "===" l r =>
      if isLiteralExpr r then some ⟨l, r⟩
      else if isLiteralExpr l then some ⟨r, l⟩
      else none
  | _ => none

/-- Modelled from the spec: `ast.areEqual` is structural (deep) equality
over the expression tree (spec section 4.1 step 3). -/
def areEqual (a b : Expr) : Bool :=
  a == b

/-- Statement nodes: expression statements, returns, breaks, blocks,
conditionals and discriminated switches (spec section 3).  Conditional
statements carry their optional source range, which is what the
traversal's selection tests consult. -/
inductive Stmt where
  | exprStmt (e : Expr)
  | returnStmt (argument : Option Expr)
  | breakStatement
  | block (body : List Stmt)
  | ifStmt (loc : Option SourceLocation) (test : Expr)
      (consequent : Stmt) (alternate : Option Stmt)
  | switchStmt (discriminant : Expr) (cases : List (Option Expr × List Stmt))

/-- A switch case: optional test value (none encodes `default`) and the
case's statement list. -/
abbrev SwitchCase := Option Expr × List Stmt

/-- Modelled from the spec: `ast.getStatements` returns a block's
statement list, or the single statement itself (spec section 4.1 step 4:
"Each link's statement body becomes a case"). -/
def getStatements : Stmt → List Stmt
  | .block body => body
  | s => [s]

/-- Modelled from the spec: `ast.hasFinalReturn` — the statement list
ends in a return statement (spec section 4.1 step 4: "if the body
already ends in a return, keep it verbatim"). -/
def hasFinalReturn (stmts : List Stmt) : Bool :=
  match stmts.getLast? with
  | some (.returnStmt _) => true
  | _ => false

/-- The test `ast.isIfStatement`. -/
def isIfStatement : Stmt → Bool
  | .ifStmt _ _ _ _ => true
  | _ => false

namespace IfElseToSwitch

/-- Fields of the `IfElseToSwitch` class: the shared discriminant (set by
the first convertible branch), the accumulated cases, and the
"all branches convertible" flag (spec section 3, conversion state). -/
structure ConvState where
  discriminant : Option Expr
  cases : List SwitchCase
  canConvertAllBranches : Bool

/-- Initial field values of `IfElseToSwitch`: no discriminant, no cases,
`canConvertAllBranches = true`. -/
def initialState : ConvState :=
  ⟨none, [], true⟩

/-- The case statement list built by `addCase`: the body's statements,
kept verbatim when they end in a return, with an explicit `break`
appended otherwise. -/
def caseBody (statement : Stmt) : List Stmt :=
  let statements := getStatements statement
  if hasFinalReturn statements then statements
  else statements ++ [Stmt.breakStatement]

/-- `IfElseToSwitch.addCase`: pushes a new case built from the given test
and statement body. -/
def addCase (s : ConvState) (test : Option Expr) (statement : Stmt) : ConvState :=
  { s with cases := s.cases ++ [(test, caseBody statement)] }

/-- `IfElseToSwitch.convertConsequent`: attempts to decompose the test;
on failure clears the flag; otherwise seeds the discriminant if unset,
clears the flag when the decomposed discriminant is not structurally
equal to the stored one, and adds the case.  The inner `none` branch is
unreachable (the discriminant has just been seeded); it mirrors the
source comparison against an absent discriminant failing. -/
def convertConsequent (s : ConvState) (test : Expr) (consequent : Stmt) : ConvState :=
  match toSwitch test with
  | none => { s with canConvertAllBranches := false }
  | some sw =>
      let s1 := match s.discriminant with
        | none => { s with discriminant := some sw.discriminant }
        | some _ => s
      let s2 := match s1.discriminant with
        | some d =>
            if areEqual d sw.discriminant then s1
            else { s1 with canConvertAllBranches := false }
        | none => { s1 with canConvertAllBranches := false }
      addCase s2 (some sw.test) consequent

/-- `IfElseToSwitch.convertNode` fused with `convertAlternate`: converts
the consequent of the link, then walks the alternate — nothing for a
missing alternate, recursion for an `else if`, and `addDefault` (a case
with no test) for a trailing `else`. -/
def convertChain (s : ConvState) (test : Expr) (consequent : Stmt) :
    Option Stmt → ConvState
  | none => convertConsequent s test consequent
  | some (.ifStmt _ t2 c2 a2) =>
      convertChain (convertConsequent s test consequent) t2 c2 a2
  | some alt => addCase (convertConsequent s test consequent) none alt

/-- `IfElseToSwitch.convert`: walks the chain from the initial state and
returns the discriminated switch when a discriminant was established and
every branch was convertible, and the original node otherwise.  The
class is only ever instantiated on if-statement paths; a non-if node is
returned unchanged. -/
def convert : Stmt → Stmt
  | .ifStmt loc test consequent alternate =>
      let s := convertChain initialState test consequent alternate
      match s.discriminant, s.canConvertAllBranches with
      | some d, true => .switchStmt d s.cases
      | _, _ => .ifStmt loc test consequent alternate
  | node => node

/-- The decision `convert` takes: a discriminant was established and all
branches were convertible.  In the source, `hasChildWhichMatchesSelection`
and the orchestrator detect this very condition through the reference
comparison `convertedNode === childPath.node` — `convert` returns the
original node reference exactly when this condition is false, and a
freshly built switch node otherwise. -/
def changes (node : Stmt) : Bool :=
  match node with
  | .ifStmt _ test consequent alternate =>
      let s := convertChain initialState test consequent alternate
      s.discriminant.isSome && s.canConvertAllBranches
  | _ => false

end IfElseToSwitch

/-! ### Conditional chains as link lists -/

/-- One link of a conditional chain: the if-statement's source range, its
test expression and its consequent body. -/
structure Link where
  loc : Option SourceLocation
  test : Expr
  body : Stmt

/-- The conditional chain built from a first link, further `else if`
links, and an optional trailing `else` statement. -/
def mkChain (first : Link) : List Link → Option Stmt → Stmt
  | [], trailingElse =>
      .ifStmt first.loc first.test first.body trailingElse
  | l2 :: rest, trailingElse =>
      .ifStmt first.loc first.test first.body (some (mkChain l2 rest trailingElse))

/-- The alternate carried by a chain's head: the trailing `else` when no
further links remain, the next link's if-statement otherwise. -/
def chainAlt : List Link → Option Stmt → Option Stmt
  | [], trailingElse => trailingElse
  | l2 :: rest, trailingElse => some (mkChain l2 rest trailingElse)

/-- A trailing `else` statement is a genuine default only when it is not
itself an if-statement (otherwise it is one more link of the chain). -/
def alternateIsNotIf : Option Stmt → Bool
  | none => true
  | some s => !isIfStatement s

namespace IfElseToSwitch

/-- Processing of one link by the chain walk: `convertConsequent` on the
link's test and body. -/
def stepLink (s : ConvState) (l : Link) : ConvState :=
  convertConsequent s l.test l.body

/-- Processing of the trailing `else`: `addDefault` (a case with no
test), or nothing when the chain has no trailing `else`. -/
def finishChain (s : ConvState) : Option Stmt → ConvState
  | none => s
  | some e => addCase s none e

end IfElseToSwitch

/-- The case list contributed by the trailing `else`: a single `default`
case, or nothing. -/
def defaultCaseList : Option Stmt → List SwitchCase
  | none => []
  | some e => [(none, IfElseToSwitch.caseBody e)]

/-- The case an equality-tested link turns into: its decomposed case
value and its processed body. -/
def caseOfLink (l : Link) : SwitchCase :=
  ((toSwitch l.test).map SwitchablePair.test, IfElseToSwitch.caseBody l.body)

/-! ### The transformation orchestrator (`updateCode`) -/

mutual

/-- Whether some if-statement in the subtree (including the root) both
matches the selection and would convert to a different node.  This is
the test `hasChildWhichMatchesSelection` applies to every visited
descendant: `selection.isInsidePath(childPath)` together with
`convertedNode !== childPath.node`. -/
def fireIn (sel : Selection) : Stmt → Bool
  | .ifStmt loc t c a =>
      (sel.isInsideLoc loc && IfElseToSwitch.changes (.ifStmt loc t c a))
        || fireIn sel c || fireInOpt sel a
  | .block body => fireInList sel body
  | .switchStmt _ cases => fireInCases sel cases
  | _ => false

def fireInOpt (sel : Selection) : Option Stmt → Bool
  | none => false
  | some s => fireIn sel s

def fireInList (sel : Selection) : List Stmt → Bool
  | [] => false
  | s :: rest => fireIn sel s || fireInList sel rest

def fireInCases (sel : Selection) : List SwitchCase → Bool
  | [] => false
  | (_, body) :: rest => fireInList sel body || fireInCases sel rest

end

/-- `hasChildWhichMatchesSelection`: traverses the if-statement's
subtree looking for a nested if-statement that matches the selection and
converts to a different result. -/
def hasChildWhichMatchesSelection (sel : Selection) : Stmt → Bool
  | .ifStmt _ _ c a => fireIn sel c || fireInOpt sel a
  | _ => false

mutual

/-- Modelled from the spec: the `ast.transform` traversal driven by
`updateCode`'s visitor (spec sections 2 and 9).  If-statements are
visited top-down; a visited if-statement that contains the selection,
has no closer-matching child, and converts to a different node is
replaced by its conversion; in every other case the traversal descends
into the children.  After a replacement the traversal would descend into
the fresh switch node; the `hasChildWhichMatchesSelection` guard has
already established that no if-statement of that subtree both matches
the selection and converts, so that descent replaces nothing and is
omitted here.  The returned flag is the orchestrator's change detection:
whether some replacement produced a different node. -/
def transformStmt (sel : Selection) : Stmt → Stmt × Bool
  | .ifStmt loc t c a =>
      if sel.isInsideLoc loc
          && !hasChildWhichMatchesSelection sel (.ifStmt loc t c a)
          && IfElseToSwitch.changes (.ifStmt loc t c a) then
        (IfElseToSwitch.convert (.ifStmt loc t c a), true)
      else
        let rc := transformStmt sel c
        let ra := transformOpt sel a
        (.ifStmt loc t rc.1 ra.1, rc.2 || ra.2)
  | .block body =>
      let r := transformList sel body
      (.block r.1, r.2)
  | .switchStmt d cases =>
      let r := transformCases sel cases
      (.switchStmt d r.1, r.2)
  | s => (s, false)

def transformOpt (sel : Selection) : Option Stmt → Option Stmt × Bool
  | none => (none, false)
  | some s =>
      let r := transformStmt sel s
      (some r.1, r.2)

def transformList (sel : Selection) : List Stmt → List Stmt × Bool
  | [] => ([], false)
  | s :: rest =>
      let r := transformStmt sel s
      let rr := transformList sel rest
      (r.1 :: rr.1, r.2 || rr.2)

def transformCases (sel : Selection) : List SwitchCase → List SwitchCase × Bool
  | [] => ([], false)
  | (t, body) :: rest =>
      let r := transformList sel body
      let rr := transformCases sel rest
      ((t, r.1) :: rr.1, r.2 || rr.2)

end

/-- Result of `ast.transform`: the new code and whether it changed. -/
structure Transformed where
  code : Stmt
  hasCodeChanged : Bool

/-- `updateCode`: runs the traversal on the code with the visitor above. -/
def updateCode (code : Stmt) (sel : Selection) : Transformed :=
  let r := transformStmt sel code
  ⟨r.1, r.2⟩

/-- `hasIfElseToConvert`: whether the conversion changes the code. -/
def hasIfElseToConvert (code : Stmt) (sel : Selection) : Bool :=
  (updateCode code sel).hasCodeChanged

/-- `convertIfElseToSwitch`: writes the updated code, or reports
`DidNotFoundIfElseToConvert` (modelled as `none`) leaving the document
untouched. -/
def convertIfElseToSwitch (code : Stmt) (sel : Selection) : Option Stmt :=
  let u := updateCode code sel
  if u.hasCodeChanged then some u.code else none

/-! ### Statement contexts (for locating a nested chain inside an outer one) -/

/-- A one-hole statement context: the hole sits at a statement position,
under block and if-statement frames. -/
inductive SCtx where
  | hole
  | blockFrame (pre : List Stmt) (rest : SCtx) (post : List Stmt)
  | ifConsequentFrame (loc : Option SourceLocation) (test : Expr)
      (rest : SCtx) (alternate : Option Stmt)
  | ifAlternateFrame (loc : Option SourceLocation) (test : Expr)
      (consequent : Stmt) (rest : SCtx)

/-- Plugging a statement into a context. -/
def SCtx.plug : SCtx → Stmt → Stmt
  | .hole, s => s
  | .blockFrame pre rest post, s => .block (pre ++ SCtx.plug rest s :: post)
  | .ifConsequentFrame loc t rest alt, s => .ifStmt loc t (SCtx.plug rest s) alt
  | .ifAlternateFrame loc t c rest, s => .ifStmt loc t c (some (SCtx.plug rest s))

/-- All statements hanging off the context, away from the hole, are free
of if-statements that match the selection and would convert. -/
def SCtx.sidesQuiet (sel : Selection) : SCtx → Bool
  | .hole => true
  | .blockFrame pre rest post =>
      pre.all (fun s => !fireIn sel s) && post.all (fun s => !fireIn sel s)
        && SCtx.sidesQuiet sel rest
  | .ifConsequentFrame _ _ rest alt =>
      !fireInOpt sel alt && SCtx.sidesQuiet sel rest
  | .ifAlternateFrame _ _ c rest =>
      !fireIn sel c && SCtx.sidesQuiet sel rest

mutual

/-- Source ranges of all if-statements in a subtree, root included. -/
def ifLocsStmt : Stmt → List (Option SourceLocation)
  | .ifStmt loc _ c a => loc :: (ifLocsStmt c ++ ifLocsOpt a)
  | .block body => ifLocsList body
  | .switchStmt _ cases => ifLocsCases cases
  | _ => []

def ifLocsOpt : Option Stmt → List (Option SourceLocation)
  | none => []
  | some s => ifLocsStmt s

def ifLocsList : List Stmt → List (Option SourceLocation)
  | [] => []
  | s :: rest => ifLocsStmt s ++ ifLocsList rest

def ifLocsCases : List SwitchCase → List (Option SourceLocation)
  | [] => []
  | (_, body) :: rest => ifLocsList body ++ ifLocsCases rest

end

/-- Source ranges of the if-statements strictly inside a statement. -/
def childIfLocs : Stmt → List (Option SourceLocation)
  | .ifStmt _ _ c a => ifLocsStmt c ++ ifLocsOpt a
  | s => ifLocsStmt s

/-! ### Occurrence classifier and Variable model (spec section 4.2) -/

/-- A literal-text segment of a template literal (`TemplateElement`):
its raw text and its optional source range. -/
structure Quasi where
  raw : String
  loc : Option SourceLocation
deriving DecidableEq

/-- Nodes relevant to occurrence classification: identifiers, string
literals, member accesses, object properties, template literals and JSX
text (spec section 3, syntax node). -/
inductive ONode where
  | ident (name : String)
  | strLit (value : String)
  | member (object : ONode) (property : ONode) (computed : Bool)
  | objectProp (key : String) (value : ONode)
  | tpl (quasis : List Quasi) (expressions : List ONode)
  | jsxText (value : String)
  | otherNode

/-- The extraction variant chosen for an occurrence (spec section 9:
closed tagged union over the five variants). -/
inductive OccKind where
  | generic
  | shorthand
  | memberExpression
  | stringLiteral
  | partialTemplateLiteral
deriving DecidableEq

/-- The `DestructureStrategy` enum of the member-expression variant. -/
inductive DestructureStrategy where
  | destructure
  | preserve
deriving DecidableEq

/-- One option offered to `editor.askUser`: a label and the strategy it
stands for. -/
structure UserChoice where
  label : String
  value : DestructureStrategy

/-- Modelled from the spec: `t.generate` prints a node back to source
text (spec section 6, tree-capability contract `print(node) -> text`). -/
def generate : ONode → String
  | .ident n => n
  | .strLit v => "\"" ++ v ++ "\""
  | .member o p true => generate o ++ "[" ++ generate p ++ "]"
  | .member o p false => generate o ++ "." ++ generate p
  | .objectProp k v => k ++ ": " ++ generate v
  | .tpl _ _ => "`...`"
  | .jsxText v => v
  | .otherNode => "..."

/-- Modelled from the spec: the name of the `Variable` backing a
member-expression occurrence is the accessed property's name, and a
derived identifier otherwise (spec section 4.2 step 2: declaration
`{ name } = <object>` binds the property name; step 5: "declaration name
is a derived identifier"). -/
def memberVariableName : ONode → String
  | .member _ (.ident n) _ => n
  | _ => "extracted"

/-- The base `Occurrence.toVariableDeclaration`: the variable's name,
and the occurrence's code as the value — quoted when the node is JSX
text. -/
def Occurrence.toVariableDeclaration (node : ONode) (name code : String) :
    String × String :=
  (name, match node with
    | .jsxText _ => "\"" ++ code ++ "\""
    | _ => code)

/-- `MemberExpressionOccurrence.toVariableDeclaration`: a computed
(bracket-notation) access, and the preserve strategy, both fall back to
the base behaviour; the destructure strategy yields a destructuring name
over the printed parent object. -/
def MemberExpressionOccurrence.toVariableDeclaration (node : ONode)
    (strategy : DestructureStrategy) (code : String) : String × String :=
  match node with
  | .member object _ computed =>
      if computed then
        Occurrence.toVariableDeclaration node (memberVariableName node) code
      else if strategy = DestructureStrategy.preserve then
        Occurrence.toVariableDeclaration node (memberVariableName node) code
      else
        ("\x7b " ++ memberVariableName node ++ " \x7d", generate object)
  | _ => Occurrence.toVariableDeclaration node (memberVariableName node) code

/-- The initial value of the `destructureStrategy` field of
`MemberExpressionOccurrence`. -/
def defaultDestructureStrategy : DestructureStrategy :=
  DestructureStrategy.destructure

/-- `MemberExpressionOccurrence.askModificationDetails`: the strategy
field is overwritten only when the prompt returned a choice; a dismissed
prompt (no choice) leaves it untouched.  The prompt itself is external
(`editor.askUser`); its possible outcomes are the argument. -/
def MemberExpressionOccurrence.askModificationDetails
    (current : DestructureStrategy) (choice : Option UserChoice) :
    DestructureStrategy :=
  match choice with
  | some c => c.value
  | none => current

/-- The declaration finally produced by the member-expression pipeline:
the default strategy, optionally overridden by the prompt's outcome,
applied to the node (spec section 5: the pipeline computes the default
"destructure" result, awaits the decision, then finalizes). -/
def memberPipelineDeclaration (node : ONode) (code : String)
    (choice : Option UserChoice) : String × String :=
  MemberExpressionOccurrence.toVariableDeclaration node
    (MemberExpressionOccurrence.askModificationDetails
      defaultDestructureStrategy choice) code

/-- Modelled from the spec: `t.canBeShorthand` — the selected node is the
value of an object property written as `{ x: x }` (spec section 4.2
step 1). -/
def canBeShorthand (node parent : ONode) : Bool :=
  match node, parent with
  | .ident _, .objectProp _ _ => true
  | _, _ => false

/-- Modelled from the spec: a shorthand candidate is valid when the
candidate name already matches its context, that is the property key
names the same identifier as the value (spec section 3: "shorthand
requires the candidate name to already match context"). -/
def ShorthandVariable.isValid (node parent : ONode) : Bool :=
  match node, parent with
  | .ident n, .objectProp k _ => n == k
  | _, _ => false

/-- Modelled from the spec: `selection.isStrictlyInsidePath` — the user's
sub-selection is strictly inside the literal, not the whole literal
(spec section 4.2 step 3). -/
def strictlyInside (sel : Selection) (loc : SourceLocation) : Bool :=
  sel.isInside (Selection.fromAST loc) && decide (Selection.fromAST loc ≠ sel)

/-- Modelled from the spec: `t.convertStringToTemplateLiteral` rewrites
the string literal in place as a template literal with a single text
segment carrying the literal's source range (spec section 4.2 step 3). -/
def convertStringToTemplateLiteral (value : String) (loc : SourceLocation) :
    List Quasi :=
  [⟨value, some loc⟩]

/-- `userSelection.isInsideNode(quasi)`: the selection lies within the
segment's source range; a segment without a range never contains it. -/
def selInsideQuasi (sel : Selection) (q : Quasi) : Bool :=
  match q.loc with
  | some l => sel.isInside (Selection.fromAST l)
  | none => false

/-- `PartialTemplateLiteralOccurrence.selectedQuasi`: the first segment
containing the user's selection, with its index.  The source throws when
no segment contains the selection ("I can't find selected text in
template elements") or when the found segment has no source range
("Template element is not selectable"); both failures are `none` here. -/
def PartialTemplateLiteralOccurrence.selectedQuasi (quasis : List Quasi)
    (userSelection : Selection) : Option (Nat × Quasi) :=
  match quasis.findIdx? (selInsideQuasi userSelection) with
  | none => none
  | some index =>
      match quasis[index]? with
      | some q => if q.loc.isSome then some (index, q) else none
      | none => none

/-- The before/selected/after split of a segment's raw text. -/
structure Parts where
  before : String
  selected : String
  after : String

/-- Modelled from the spec: the `Parts` splitter locates the user's
character range inside the segment's raw text (offset by the segment's
start) and splits it into a before-part, the exact selected substring,
and an after-part (spec section 4.2 step 4). -/
def mkParts (raw : String) (sel : Selection) (offset : Position) : Parts :=
  let a := sel.start.character - offset.character
  let b := sel.stop.character - offset.character
  ⟨(raw.take a), ((raw.drop a).take (b - a)), (raw.drop b)⟩

/-- `PartialTemplateLiteralOccurrence.isValid`: multi-line occurrences
are rejected outright; otherwise the occurrence is constructed once and
its declaration and modification computed, any internal failure (both
arise from `selectedQuasi`) being caught and reported as invalidity. -/
def PartialTemplateLiteralOccurrence.isValid (quasis : List Quasi)
    (loc : SourceLocation) (userSelection : Selection) : Bool :=
  if (Selection.fromAST loc).isMultiLines then false
  else (PartialTemplateLiteralOccurrence.selectedQuasi quasis userSelection).isSome

/-- The last two classification rules of `createOccurrence`, which are
the only rules a template literal can satisfy: the
partial-template-literal variant when the selection is not empty and the
feasibility probe succeeds, the generic variant otherwise. -/
def classifyTemplateLiteral (quasis : List Quasi) (loc : SourceLocation)
    (sel : Selection) : OccKind :=
  if !sel.isEmpty && PartialTemplateLiteralOccurrence.isValid quasis loc sel then
    OccKind.partialTemplateLiteral
  else
    OccKind.generic

/-- `createOccurrence`: classification order — shorthand, member
expression, string literal (rewritten in place to a template literal and
re-classified; the recursion can only reach the template-literal or
generic rules, inlined here as `classifyTemplateLiteral`), template
literal, generic. -/
def createOccurrence (node parent : ONode) (loc : SourceLocation)
    (sel : Selection) : OccKind :=
  if canBeShorthand node parent && ShorthandVariable.isValid node parent then
    OccKind.shorthand
  else
    match node with
    | .member _ _ _ => OccKind.memberExpression
    | .strLit v =>
        if !sel.isEmpty && strictlyInside sel loc then
          classifyTemplateLiteral (convertStringToTemplateLiteral v loc) loc sel
        else
          OccKind.stringLiteral
    | .tpl quasis _ => classifyTemplateLiteral quasis loc sel
    | _ => OccKind.generic

/-! ### Lemmas about the chain walk -/

namespace IfElseToSwitch

theorem addCase_canConvertAllBranches (s : ConvState) (t : Option Expr) (st : Stmt) :
    (addCase s t st).canConvertAllBranches = s.canConvertAllBranches := rfl

theorem addCase_discriminant (s : ConvState) (t : Option Expr) (st : Stmt) :
    (addCase s t st).discriminant = s.discriminant := rfl

theorem convertConsequent_flag_false (s : ConvState) (t : Expr) (c : Stmt)
    (h : s.canConvertAllBranches = false) :
    (convertConsequent s t c).canConvertAllBranches = false := by
  unfold convertConsequent
  cases htw : toSwitch t with
  | none => simp [h]
  | some sw =>
    cases hd : s.discriminant with
    | none => simp [addCase, hd, h]
    | some d =>
      by_cases he : areEqual d sw.discriminant <;> simp [addCase, hd, he, h]

theorem convertConsequent_disc_some (s : ConvState) (t : Expr) (c : Stmt)
    (d : Expr) (h : s.discriminant = some d) :
    (convertConsequent s t c).discriminant = some d := by
  unfold convertConsequent
  cases htw : toSwitch t with
  | none => simpa using h
  | some sw =>
    by_cases he : areEqual d sw.discriminant <;> simp [addCase, h, he]

theorem convertConsequent_fail (s : ConvState) (t : Expr) (c : Stmt)
    (h : toSwitch t = none) :
    convertConsequent s t c = { s with canConvertAllBranches := false } := by
  unfold convertConsequent
  rw [h]

theorem convertConsequent_seed (s : ConvState) (t : Expr) (c : Stmt)
    (d v : Expr) (htw : toSwitch t = some ⟨d, v⟩) (hd : s.discriminant = none) :
    convertConsequent s t c =
      ⟨some d, s.cases ++ [(some v, caseBody c)], s.canConvertAllBranches⟩ := by
  unfold convertConsequent
  rw [htw]
  simp [hd, addCase, areEqual]

theorem convertConsequent_same (s : ConvState) (t : Expr) (c : Stmt)
    (d v : Expr) (htw : toSwitch t = some ⟨d, v⟩) (hd : s.discriminant = some d) :
    convertConsequent s t c =
      ⟨some d, s.cases ++ [(some v, caseBody c)], s.canConvertAllBranches⟩ := by
  unfold convertConsequent
  rw [htw]
  simp [hd, addCase, areEqual]

theorem convertConsequent_mismatch (s : ConvState) (t : Expr) (c : Stmt)
    (d d2 v2 : Expr) (htw : toSwitch t = some ⟨d2, v2⟩)
    (hd : s.discriminant = some d) (hne : d2 ≠ d) :
    (convertConsequent s t c).canConvertAllBranches = false := by
  unfold convertConsequent
  rw [htw]
  have : areEqual d d2 = false := by
    simpa [areEqual] using Ne.symm hne
  simp [hd, addCase, this]

theorem foldl_stepLink_flag_false (ls : List Link) (s : ConvState)
    (h : s.canConvertAllBranches = false) :
    (ls.foldl stepLink s).canConvertAllBranches = false := by
  induction ls generalizing s with
  | nil => exact h
  | cons l ls ih =>
    exact ih _ (convertConsequent_flag_false _ _ _ h)

theorem foldl_stepLink_disc_some (ls : List Link) (s : ConvState) (d : Expr)
    (h : s.discriminant = some d) :
    (ls.foldl stepLink s).discriminant = some d := by
  induction ls generalizing s with
  | nil => exact h
  | cons l ls ih =>
    exact ih _ (convertConsequent_disc_some _ _ _ _ h)

theorem foldl_stepLink_good (d : Expr) (ls : List Link) :
    ∀ s : ConvState, (∀ l ∈ ls, ∃ v, toSwitch l.test = some ⟨d, v⟩) →
      s.discriminant = some d → s.canConvertAllBranches = true →
      ls.foldl stepLink s = ⟨some d, s.cases ++ ls.map caseOfLink, true⟩ := by
  induction ls with
  | nil =>
    intro s _ hd hf
    cases s
    simp_all
  | cons l ls ih =>
    intro s hall hd hf
    obtain ⟨v, hv⟩ := hall l (List.mem_cons_self l ls)
    have hstep : stepLink s l = ⟨some d, s.cases ++ [(some v, caseBody l.body)], true⟩ := by
      rw [stepLink, convertConsequent_same s l.test l.body d v hv hd, hf]
    rw [List.foldl_cons, hstep,
      ih _ (fun x hx => hall x (List.mem_cons_of_mem l hx)) rfl rfl]
    have hcl : caseOfLink l = (some v, caseBody l.body) := by
      simp [caseOfLink, hv]
    simp [hcl]

theorem finishChain_flag (s : ConvState) (els : Option Stmt) :
    (finishChain s els).canConvertAllBranches = s.canConvertAllBranches := by
  cases els <;> rfl

theorem finishChain_disc (s : ConvState) (els : Option Stmt) :
    (finishChain s els).discriminant = s.discriminant := by
  cases els <;> rfl

theorem finishChain_cases (s : ConvState) (els : Option Stmt) :
    (finishChain s els).cases = s.cases ++ defaultCaseList els := by
  cases els <;> simp [finishChain, addCase, defaultCaseList]

end IfElseToSwitch

theorem mkChain_eq (l : Link) (rest : List Link) (els : Option Stmt) :
    mkChain l rest els = .ifStmt l.loc l.test l.body (chainAlt rest els) := by
  cases rest <;> rfl

theorem convertChain_chainAlt (rest : List Link) :
    ∀ (s : IfElseToSwitch.ConvState) (first : Link) (els : Option Stmt),
      alternateIsNotIf els = true →
      IfElseToSwitch.convertChain s first.test first.body (chainAlt rest els) =
        IfElseToSwitch.finishChain ((first :: rest).foldl IfElseToSwitch.stepLink s) els := by
  induction rest with
  | nil =>
    intro s first els hels
    cases els with
    | none => rfl
    | some e =>
      cases e <;>
        simp_all [IfElseToSwitch.convertChain, chainAlt, IfElseToSwitch.finishChain,
          IfElseToSwitch.stepLink, alternateIsNotIf, isIfStatement]
  | cons l2 r ih =>
    intro s first els hels
    show IfElseToSwitch.convertChain s first.test first.body (some (mkChain l2 r els)) = _
    rw [mkChain_eq]
    show IfElseToSwitch.convertChain
        (IfElseToSwitch.convertConsequent s first.test first.body) l2.test l2.body
        (chainAlt r els) = _
    rw [ih _ l2 els hels]
    rfl

theorem convert_mkChain (first : Link) (rest : List Link) (els : Option Stmt)
    (hels : alternateIsNotIf els = true) :
    IfElseToSwitch.convert (mkChain first rest els) =
      (let s := IfElseToSwitch.finishChain
          ((first :: rest).foldl IfElseToSwitch.stepLink IfElseToSwitch.initialState) els
       match s.discriminant, s.canConvertAllBranches with
       | some d, true => Stmt.switchStmt d s.cases
       | _, _ => mkChain first rest els) := by
  conv_lhs => rw [mkChain_eq]
  show (let s := IfElseToSwitch.convertChain IfElseToSwitch.initialState first.test
          first.body (chainAlt rest els)
        match s.discriminant, s.canConvertAllBranches with
        | some d, true => Stmt.switchStmt d s.cases
        | _, _ => Stmt.ifStmt first.loc first.test first.body (chainAlt rest els)) = _
  rw [convertChain_chainAlt rest _ first els hels, ← mkChain_eq]

theorem getLast?_append_singleton (l : List Stmt) (a : Stmt) :
    (l ++ [a]).getLast? = some a := by
  simp

theorem caseBody_getLast (st : Stmt) :
    (∃ e, (IfElseToSwitch.caseBody st).getLast? = some (Stmt.returnStmt e)) ∨
      (IfElseToSwitch.caseBody st).getLast? = some Stmt.breakStatement := by
  cases h : hasFinalReturn (getStatements st) with
  | true =>
    left
    have hbody : IfElseToSwitch.caseBody st = getStatements st := by
      simp [IfElseToSwitch.caseBody, h]
    rw [hbody]
    cases hl : (getStatements st).getLast? with
    | none => simp [hasFinalReturn, hl] at h
    | some s =>
      cases s <;> simp [hasFinalReturn, hl] at h
      case returnStmt arg => exact ⟨arg, rfl⟩
  | false =>
    right
    have hbody : IfElseToSwitch.caseBody st =
        getStatements st ++ [Stmt.breakStatement] := by
      simp [IfElseToSwitch.caseBody, h]
    rw [hbody, getLast?_append_singleton]

/-- C1: for a conditional chain in which every link's test decomposes
into an equality check against one common discriminant `d`, `convert`
returns a switch on `d` whose case order equals the source branch order,
whose trailing `else` with no test becomes the `default` case (in last
position), and in which every case's statement list either ends in the
original return (the body kept verbatim) or has an explicit `break`
appended — so every case ends in a return or a `break`. -/
theorem convert_equality_chain_yields_switch
    (first : Link) (rest : List Link) (els : Option Stmt) (d : Expr)
    (hels : alternateIsNotIf els = true)
    (hall : ∀ l ∈ first :: rest, ∃ v, toSwitch l.test = some ⟨d, v⟩) :
    IfElseToSwitch.convert (mkChain first rest els) =
      Stmt.switchStmt d ((first :: rest).map caseOfLink ++ defaultCaseList els) ∧
    ∀ c ∈ (first :: rest).map caseOfLink ++ defaultCaseList els,
      (∃ e, c.2.getLast? = some (Stmt.returnStmt e)) ∨
        c.2.getLast? = some Stmt.breakStatement := by
  constructor
  · rw [convert_mkChain first rest els hels]
    obtain ⟨v, hv⟩ := hall first (List.mem_cons_self _ _)
    have hfirst : IfElseToSwitch.stepLink IfElseToSwitch.initialState first =
        ⟨some d, [(some v, IfElseToSwitch.caseBody first.body)], true⟩ := by
      rw [IfElseToSwitch.stepLink,
        IfElseToSwitch.convertConsequent_seed _ _ _ d v hv rfl]
      rfl
    have hfold : (first :: rest).foldl IfElseToSwitch.stepLink
        IfElseToSwitch.initialState =
          ⟨some d, (some v, IfElseToSwitch.caseBody first.body) ::
            rest.map caseOfLink, true⟩ := by
      rw [List.foldl_cons, hfirst,
        IfElseToSwitch.foldl_stepLink_good d rest _
          (fun l hl => hall l (List.mem_cons_of_mem _ hl)) rfl rfl]
      simp
    have hcf : caseOfLink first = (some v, IfElseToSwitch.caseBody first.body) := by
      simp [caseOfLink, hv]
    simp only [hfold, IfElseToSwitch.finishChain_disc, IfElseToSwitch.finishChain_flag,
      IfElseToSwitch.finishChain_cases, List.map_cons, hcf]
  · intro c hc
    rcases List.mem_append.mp hc with hmap | hdef
    · obtain ⟨l, _, rfl⟩ := List.mem_map.mp hmap
      exact caseBody_getLast l.body
    · cases els with
      | none => simp [defaultCaseList] at hdef
      | some e =>
        have : c = ((none : Option Expr), IfElseToSwitch.caseBody e) := by
          simpa [defaultCaseList] using hdef
        rw [this]
        exact caseBody_getLast e

/-- Witness for C1 at the canonical chain
`if (x === 'a') { f; } else if (x === 'b') { return; } else { h; }`. -/
theorem convert_equality_chain_yields_switch_witness :
    IfElseToSwitch.convert
        (mkChain ⟨none, .binop "===" (.ident "x") (.strLit "a"),
            .block [.exprStmt (.ident "f")]⟩
          [⟨none, .binop "===" (.ident "x") (.strLit "b"),
            .block [.returnStmt none]⟩]
          (some (.block [.exprStmt (.ident "h")]))) =
      Stmt.switchStmt (.ident "x")
        (([⟨none, Expr.binop "===" (.ident "x") (.strLit "a"),
            Stmt.block [.exprStmt (.ident "f")]⟩,
           ⟨none, Expr.binop "===" (.ident "x") (.strLit "b"),
            Stmt.block [.returnStmt none]⟩] : List Link).map caseOfLink ++
          defaultCaseList (some (.block [.exprStmt (.ident "h")]))) ∧
    ∀ c ∈ ([⟨none, Expr.binop "===" (.ident "x") (.strLit "a"),
            Stmt.block [.exprStmt (.ident "f")]⟩,
           ⟨none, Expr.binop "===" (.ident "x") (.strLit "b"),
            Stmt.block [.returnStmt none]⟩] : List Link).map caseOfLink ++
          defaultCaseList (some (.block [.exprStmt (.ident "h")])),
      (∃ e, c.2.getLast? = some (Stmt.returnStmt e)) ∨
        c.2.getLast? = some Stmt.breakStatement :=
  convert_equality_chain_yields_switch
    ⟨none, .binop "===" (.ident "x") (.strLit "a"), .block [.exprStmt (.ident "f")]⟩
    [⟨none, .binop "===" (.ident "x") (.strLit "b"), .block [.returnStmt none]⟩]
    (some (.block [.exprStmt (.ident "h")])) (.ident "x") rfl
    (by
      intro l hl
      simp only [List.mem_cons, List.not_mem_nil, or_false] at hl
      rcases hl with rfl | rfl
      · exact ⟨.strLit "a", rfl⟩
      · exact ⟨.strLit "b", rfl⟩)

/-- C3: when all links decompose as equality tests but some later link's
decomposed discriminant differs structurally from the first link's,
`convert` returns the original chain unchanged. -/
theorem convert_discriminant_mismatch_unchanged
    (first : Link) (rest : List Link) (els : Option Stmt) (d v : Expr)
    (hels : alternateIsNotIf els = true)
    (hfirst : toSwitch first.test = some ⟨d, v⟩)
    (_hall : ∀ l ∈ first :: rest, (toSwitch l.test).isSome = true)
    (hbad : ∃ l ∈ rest, ∃ d2 v2, toSwitch l.test = some ⟨d2, v2⟩ ∧ d2 ≠ d) :
    IfElseToSwitch.convert (mkChain first rest els) = mkChain first rest els := by
  rw [convert_mkChain first rest els hels]
  obtain ⟨l, hl, d2, v2, htw, hne⟩ := hbad
  obtain ⟨pre, post, rfl⟩ := List.append_of_mem hl
  have h1 : (IfElseToSwitch.stepLink IfElseToSwitch.initialState first).discriminant
      = some d := by
    rw [IfElseToSwitch.stepLink,
      IfElseToSwitch.convertConsequent_seed _ _ _ d v hfirst rfl]
  have h2 : ((pre.foldl IfElseToSwitch.stepLink
      (IfElseToSwitch.stepLink IfElseToSwitch.initialState first))).discriminant
      = some d :=
    IfElseToSwitch.foldl_stepLink_disc_some pre _ d h1
  have h3 : ((first :: (pre ++ l :: post)).foldl IfElseToSwitch.stepLink
      IfElseToSwitch.initialState).canConvertAllBranches = false := by
    rw [List.foldl_cons, List.foldl_append, List.foldl_cons]
    exact IfElseToSwitch.foldl_stepLink_flag_false post _
      (IfElseToSwitch.convertConsequent_mismatch _ l.test l.body d d2 v2 htw h2 hne)
  have hflag : (IfElseToSwitch.finishChain
      ((first :: (pre ++ l :: post)).foldl IfElseToSwitch.stepLink
        IfElseToSwitch.initialState) els).canConvertAllBranches = false := by
    rw [IfElseToSwitch.finishChain_flag]
    exact h3
  dsimp only
  rw [hflag]
  cases hdisc : (IfElseToSwitch.finishChain
      ((first :: (pre ++ l :: post)).foldl IfElseToSwitch.stepLink
        IfElseToSwitch.initialState) els).discriminant <;> rfl

/-- Witness for C3 at `if (x === 'a') { f; } else if (y === 'b') { g; }`:
the two discriminants differ, so the chain is returned unchanged. -/
theorem convert_discriminant_mismatch_unchanged_witness :
    IfElseToSwitch.convert
        (mkChain ⟨none, .binop "===" (.ident "x") (.strLit "a"),
            .block [.exprStmt (.ident "f")]⟩
          [⟨none, .binop "===" (.ident "y") (.strLit "b"),
            .block [.exprStmt (.ident "g")]⟩] none) =
      mkChain ⟨none, .binop "===" (.ident "x") (.strLit "a"),
          .block [.exprStmt (.ident "f")]⟩
        [⟨none, .binop "===" (.ident "y") (.strLit "b"),
          .block [.exprStmt (.ident "g")]⟩] none :=
  convert_discriminant_mismatch_unchanged
    ⟨none, .binop "===" (.ident "x") (.strLit "a"), .block [.exprStmt (.ident "f")]⟩
    [⟨none, .binop "===" (.ident "y") (.strLit "b"), .block [.exprStmt (.ident "g")]⟩]
    none (.ident "x") (.strLit "a") rfl rfl
    (by
      intro l hl
      simp only [List.mem_cons, List.not_mem_nil, or_false] at hl
      rcases hl with rfl | rfl <;> rfl)
    ⟨⟨none, .binop "===" (.ident "y") (.strLit "b"), .block [.exprStmt (.ident "g")]⟩,
      by simp, .ident "y", .strLit "b", rfl, by decide⟩

theorem convertChain_flag_false :
    ∀ (s : IfElseToSwitch.ConvState) (t : Expr) (c : Stmt) (a : Option Stmt),
      s.canConvertAllBranches = false →
      (IfElseToSwitch.convertChain s t c a).canConvertAllBranches = false := by
  intro s t c a
  induction s, t, c, a using IfElseToSwitch.convertChain.induct with
  | case1 s t c =>
    intro h
    exact IfElseToSwitch.convertConsequent_flag_false s t c h
  | case2 s t c loc t2 c2 a2 ih =>
    intro h
    exact ih (IfElseToSwitch.convertConsequent_flag_false s t c h)
  | case3 s t c alt hne =>
    intro h
    cases alt
    case ifStmt l t2 c2 a2 => exact absurd rfl (hne l t2 c2 a2)
    all_goals exact IfElseToSwitch.convertConsequent_flag_false s t c h

theorem convertChain_disc_some :
    ∀ (s : IfElseToSwitch.ConvState) (t : Expr) (c : Stmt) (a : Option Stmt) (d : Expr),
      s.discriminant = some d →
      (IfElseToSwitch.convertChain s t c a).discriminant = some d := by
  intro s t c a
  induction s, t, c, a using IfElseToSwitch.convertChain.induct with
  | case1 s t c =>
    intro d h
    exact IfElseToSwitch.convertConsequent_disc_some s t c d h
  | case2 s t c loc t2 c2 a2 ih =>
    intro d h
    exact ih d (IfElseToSwitch.convertConsequent_disc_some s t c d h)
  | case3 s t c alt hne =>
    intro d h
    cases alt
    case ifStmt l t2 c2 a2 => exact absurd rfl (hne l t2 c2 a2)
    all_goals exact IfElseToSwitch.convertConsequent_disc_some s t c d h

/-- C6: over every run of the chain walk from any intermediate state,
the `canConvertAllBranches` flag, once false, never returns to true for
the rest of the traversal, and the discriminant, once set, is never
replaced by any later link. -/
theorem ifElseToSwitch_state_invariants
    (s : IfElseToSwitch.ConvState) (test : Expr) (consequent : Stmt)
    (alternate : Option Stmt) :
    (s.canConvertAllBranches = false →
      (IfElseToSwitch.convertChain s test consequent alternate).canConvertAllBranches
        = false) ∧
    (∀ d, s.discriminant = some d →
      (IfElseToSwitch.convertChain s test consequent alternate).discriminant
        = some d) :=
  ⟨convertChain_flag_false s test consequent alternate,
   fun d => convertChain_disc_some s test consequent alternate d⟩

/-- Witness for C6: a state whose flag is already false and whose
discriminant is already set keeps both across a further convertible
link. -/
theorem ifElseToSwitch_state_invariants_witness :
    (IfElseToSwitch.convertChain ⟨some (.ident "x"), [], false⟩
      (.binop "===" (.ident "x") (.strLit "a"))
      (.block [.exprStmt (.ident "f")]) none).canConvertAllBranches = false ∧
    (IfElseToSwitch.convertChain ⟨some (.ident "x"), [], false⟩
      (.binop "===" (.ident "x") (.strLit "a"))
      (.block [.exprStmt (.ident "f")]) none).discriminant = some (.ident "x") :=
  ⟨(ifElseToSwitch_state_invariants ⟨some (.ident "x"), [], false⟩
      (.binop "===" (.ident "x") (.strLit "a"))
      (.block [.exprStmt (.ident "f")]) none).1 rfl,
   (ifElseToSwitch_state_invariants ⟨some (.ident "x"), [], false⟩
      (.binop "===" (.ident "x") (.strLit "a"))
      (.block [.exprStmt (.ident "f")]) none).2 (.ident "x") rfl⟩

/-! ### Lemmas about the traversal -/

theorem fireInList_append (sel : Selection) (l1 l2 : List Stmt) :
    fireInList sel (l1 ++ l2) = (fireInList sel l1 || fireInList sel l2) := by
  induction l1 with
  | nil => simp [fireInList]
  | cons s rest ih => simp [fireInList, ih, Bool.or_assoc]

theorem noMatch_noFire (sel : Selection) :
    ∀ s : Stmt, (∀ lo ∈ ifLocsStmt s, sel.isInsideLoc lo = false) →
      fireIn sel s = false := by
  refine fireIn.induct sel
    (fun s => (∀ lo ∈ ifLocsStmt s, sel.isInsideLoc lo = false) →
      fireIn sel s = false)
    (fun cs => (∀ lo ∈ ifLocsCases cs, sel.isInsideLoc lo = false) →
      fireInCases sel cs = false)
    (fun l => (∀ lo ∈ ifLocsList l, sel.isInsideLoc lo = false) →
      fireInList sel l = false)
    (fun o => (∀ lo ∈ ifLocsOpt o, sel.isInsideLoc lo = false) →
      fireInOpt sel o = false)
    ?_ ?_ ?_ ?_ ?_ ?_ ?_ ?_ ?_ ?_
  · intro loc t c a ihc iha h
    have hloc : sel.isInsideLoc loc = false :=
      h loc (by simp [ifLocsStmt])
    have hc := ihc (fun lo hlo => h lo
      (by simp only [ifLocsStmt, List.mem_cons, List.mem_append]
          exact Or.inr (Or.inl hlo)))
    have ha := iha (fun lo hlo => h lo
      (by simp only [ifLocsStmt, List.mem_cons, List.mem_append]
          exact Or.inr (Or.inr hlo)))
    simp [fireIn, hloc, hc, ha]
  · intro body ih h
    have := ih (fun lo hlo => h lo (by simpa [ifLocsStmt] using hlo))
    simpa [fireIn] using this
  · intro d cases ih h
    have := ih (fun lo hlo => h lo (by simpa [ifLocsStmt] using hlo))
    simpa [fireIn] using this
  · intro t h1 h2 h3 hq
    cases t
    case ifStmt => exact absurd rfl (h1 _ _ _ _)
    case block => exact absurd rfl (h2 _)
    case switchStmt => exact absurd rfl (h3 _ _)
    all_goals rfl
  · intro _
    rfl
  · intro s rest ihs ihrest h
    have hs := ihs (fun lo hlo => h lo
      (by simp only [ifLocsList, List.mem_append]; exact Or.inl hlo))
    have hr := ihrest (fun lo hlo => h lo
      (by simp only [ifLocsList, List.mem_append]; exact Or.inr hlo))
    simp [fireInList, hs, hr]
  · intro _
    rfl
  · intro s ih h
    have := ih (fun lo hlo => h lo (by simpa [ifLocsOpt] using hlo))
    simpa [fireInOpt] using this
  · intro _
    rfl
  · intro t body rest ihb ihrest h
    have hb := ihb (fun lo hlo => h lo
      (by simp only [ifLocsCases, List.mem_append]; exact Or.inl hlo))
    have hr := ihrest (fun lo hlo => h lo
      (by simp only [ifLocsCases, List.mem_append]; exact Or.inr hlo))
    simp [fireInCases, hb, hr]

theorem noFire_transform (sel : Selection) :
    ∀ s : Stmt, fireIn sel s = false → transformStmt sel s = (s, false) := by
  refine transformStmt.induct sel
    (fun s => fireIn sel s = false → transformStmt sel s = (s, false))
    (fun cs => fireInCases sel cs = false → transformCases sel cs = (cs, false))
    (fun l => fireInList sel l = false → transformList sel l = (l, false))
    (fun o => fireInOpt sel o = false → transformOpt sel o = (o, false))
    ?_ ?_ ?_ ?_ ?_ ?_ ?_ ?_ ?_ ?_ ?_
  · intro loc t c a hcond h
    exfalso
    simp only [fireIn, Bool.or_eq_false_iff, Bool.and_eq_false_iff] at h
    simp only [Bool.and_eq_true, Bool.not_eq_eq_eq_not, Bool.not_true] at hcond
    rcases h.1.1 with hin | hch
    · rw [hcond.1.1] at hin
      exact Bool.true_eq_false.mp hin
    · rw [hcond.2] at hch
      exact Bool.true_eq_false.mp hch
  · intro loc t c a _ ihc iha h
    simp only [fireIn, Bool.or_eq_false_iff] at h
    simp only [transformStmt, ihc h.1.2, iha h.2]
    simp
    intro hin _
    have hA := h.1.1
    rw [hin] at hA
    simpa using hA
  · intro body ih h
    simp only [fireIn] at h
    simp [transformStmt, ih h]
  · intro d cases ih h
    simp only [fireIn] at h
    simp [transformStmt, ih h]
  · intro t h1 h2 h3 hq
    cases t
    case ifStmt => exact absurd rfl (h1 _ _ _ _)
    case block => exact absurd rfl (h2 _)
    case switchStmt => exact absurd rfl (h3 _ _)
    all_goals rfl
  · intro _
    rfl
  · intro s rest ihs ihrest h
    simp only [fireInList, Bool.or_eq_false_iff] at h
    simp [transformList, ihs h.1, ihrest h.2]
  · intro _
    rfl
  · intro s ih h
    simp only [fireInOpt] at h
    simp [transformOpt, ih h]
  · intro _
    rfl
  · intro t body rest ihb ihrest h
    simp only [fireInCases, Bool.or_eq_false_iff] at h
    simp [transformCases, ihb h.1, ihrest h.2]

theorem transformOpt_quiet (sel : Selection) (a : Option Stmt)
    (h : fireInOpt sel a = false) : transformOpt sel a = (a, false) := by
  cases a with
  | none => rfl
  | some s =>
    simp only [fireInOpt] at h
    simp [transformOpt, noFire_transform sel s h]

theorem transformList_quiet (sel : Selection) (l : List Stmt)
    (h : l.all (fun x => !fireIn sel x) = true) :
    transformList sel l = (l, false) := by
  induction l with
  | nil => rfl
  | cons s rest ih =>
    simp only [List.all_cons, Bool.and_eq_true, Bool.not_eq_eq_eq_not,
      Bool.not_true] at h
    simp [transformList, noFire_transform sel s h.1, ih h.2]

theorem foldl_stepLink_bad (first : Link) (rest : List Link)
    (hbad : ∃ l ∈ first :: rest, toSwitch l.test = none) :
    ((first :: rest).foldl IfElseToSwitch.stepLink
      IfElseToSwitch.initialState).canConvertAllBranches = false := by
  obtain ⟨l, hl, htw⟩ := hbad
  obtain ⟨pre, post, heq⟩ := List.append_of_mem hl
  rw [heq, List.foldl_append, List.foldl_cons]
  refine IfElseToSwitch.foldl_stepLink_flag_false post _ ?_
  show (IfElseToSwitch.convertConsequent _ l.test l.body).canConvertAllBranches = false
  rw [IfElseToSwitch.convertConsequent_fail _ _ _ htw]

theorem convert_unchanged_of_flag_false (first : Link) (rest : List Link)
    (els : Option Stmt) (hels : alternateIsNotIf els = true)
    (hflag : ((first :: rest).foldl IfElseToSwitch.stepLink
      IfElseToSwitch.initialState).canConvertAllBranches = false) :
    IfElseToSwitch.convert (mkChain first rest els) = mkChain first rest els := by
  rw [convert_mkChain first rest els hels]
  have h : (IfElseToSwitch.finishChain
      ((first :: rest).foldl IfElseToSwitch.stepLink
        IfElseToSwitch.initialState) els).canConvertAllBranches = false := by
    rw [IfElseToSwitch.finishChain_flag]
    exact hflag
  dsimp only
  rw [h]
  cases hd : (IfElseToSwitch.finishChain
      ((first :: rest).foldl IfElseToSwitch.stepLink
        IfElseToSwitch.initialState) els).discriminant <;> rfl

theorem changes_of_flag_false (first : Link) (rest : List Link)
    (els : Option Stmt) (hels : alternateIsNotIf els = true)
    (hflag : ((first :: rest).foldl IfElseToSwitch.stepLink
      IfElseToSwitch.initialState).canConvertAllBranches = false) :
    IfElseToSwitch.changes (mkChain first rest els) = false := by
  rw [mkChain_eq]
  show ((IfElseToSwitch.convertChain IfElseToSwitch.initialState first.test
      first.body (chainAlt rest els)).discriminant.isSome &&
    (IfElseToSwitch.convertChain IfElseToSwitch.initialState first.test
      first.body (chainAlt rest els)).canConvertAllBranches) = false
  rw [convertChain_chainAlt rest _ first els hels, IfElseToSwitch.finishChain_flag,
    hflag, Bool.and_false]

theorem noMatch_noFireOpt (sel : Selection) (a : Option Stmt)
    (h : ∀ lo ∈ ifLocsOpt a, sel.isInsideLoc lo = false) :
    fireInOpt sel a = false := by
  cases a with
  | none => rfl
  | some s => exact noMatch_noFire sel s (fun lo hlo => h lo (by simpa [ifLocsOpt] using hlo))

/-- C2: for a chain containing a link whose test is not an equality
comparison, `convert` returns the original if-statement unchanged, the
traversal replaces nothing (no partially converted chain), and
`hasIfElseToConvert` is false for that chain — for any selection that
matches no if-statement strictly inside the chain. -/
theorem convert_nonequality_link_unchanged
    (first : Link) (rest : List Link) (els : Option Stmt) (sel : Selection)
    (hels : alternateIsNotIf els = true)
    (hbad : ∃ l ∈ first :: rest, toSwitch l.test = none)
    (hdesc : ∀ lo ∈ childIfLocs (mkChain first rest els),
      sel.isInsideLoc lo = false) :
    IfElseToSwitch.convert (mkChain first rest els) = mkChain first rest els ∧
    updateCode (mkChain first rest els) sel = ⟨mkChain first rest els, false⟩ ∧
    hasIfElseToConvert (mkChain first rest els) sel = false := by
  have hflag := foldl_stepLink_bad first rest hbad
  have hconv := convert_unchanged_of_flag_false first rest els hels hflag
  have hch := changes_of_flag_false first rest els hels hflag
  have hdesc2 : ∀ lo ∈ ifLocsStmt first.body ++ ifLocsOpt (chainAlt rest els),
      sel.isInsideLoc lo = false := by
    intro lo hlo
    refine hdesc lo ?_
    rw [mkChain_eq]
    exact hlo
  have hquietc : fireIn sel first.body = false :=
    noMatch_noFire sel first.body
      (fun lo hlo => hdesc2 lo (List.mem_append.mpr (Or.inl hlo)))
  have hquieta : fireInOpt sel (chainAlt rest els) = false :=
    noMatch_noFireOpt sel (chainAlt rest els)
      (fun lo hlo => hdesc2 lo (List.mem_append.mpr (Or.inr hlo)))
  have hupd : updateCode (mkChain first rest els) sel =
      ⟨mkChain first rest els, false⟩ := by
    rw [updateCode]
    conv_lhs => rw [mkChain_eq]
    have hch2 : IfElseToSwitch.changes
        (Stmt.ifStmt first.loc first.test first.body (chainAlt rest els)) = false := by
      rw [← mkChain_eq]
      exact hch
    simp only [transformStmt, hch2, Bool.and_false, if_false,
      noFire_transform sel first.body hquietc,
      transformOpt_quiet sel (chainAlt rest els) hquieta]
    rw [← mkChain_eq]
    rfl
  exact ⟨hconv, hupd, by rw [hasIfElseToConvert, hupd]⟩

/-- Witness for C2 at `if (x === 'a') f; else if (x > 1) g; else h;`
with a selection placed on the whole chain, matching no inner link. -/
theorem convert_nonequality_link_unchanged_witness :
    IfElseToSwitch.convert
        (mkChain ⟨some ⟨⟨0, 0⟩, ⟨6, 1⟩⟩, .binop "===" (.ident "x") (.strLit "a"),
            .block [.exprStmt (.ident "f")]⟩
          [⟨some ⟨⟨2, 7⟩, ⟨6, 1⟩⟩, .binop ">" (.ident "x") (.numLit 1),
            .block [.exprStmt (.ident "g")]⟩]
          (some (.block [.exprStmt (.ident "h")]))) =
      mkChain ⟨some ⟨⟨0, 0⟩, ⟨6, 1⟩⟩, .binop "===" (.ident "x") (.strLit "a"),
          .block [.exprStmt (.ident "f")]⟩
        [⟨some ⟨⟨2, 7⟩, ⟨6, 1⟩⟩, .binop ">" (.ident "x") (.numLit 1),
          .block [.exprStmt (.ident "g")]⟩]
        (some (.block [.exprStmt (.ident "h")])) ∧
    updateCode
        (mkChain ⟨some ⟨⟨0, 0⟩, ⟨6, 1⟩⟩, .binop "===" (.ident "x") (.strLit "a"),
            .block [.exprStmt (.ident "f")]⟩
          [⟨some ⟨⟨2, 7⟩, ⟨6, 1⟩⟩, .binop ">" (.ident "x") (.numLit 1),
            .block [.exprStmt (.ident "g")]⟩]
          (some (.block [.exprStmt (.ident "h")]))) ⟨⟨0, 0⟩, ⟨6, 1⟩⟩ =
      ⟨mkChain ⟨some ⟨⟨0, 0⟩, ⟨6, 1⟩⟩, .binop "===" (.ident "x") (.strLit "a"),
          .block [.exprStmt (.ident "f")]⟩
        [⟨some ⟨⟨2, 7⟩, ⟨6, 1⟩⟩, .binop ">" (.ident "x") (.numLit 1),
          .block [.exprStmt (.ident "g")]⟩]
        (some (.block [.exprStmt (.ident "h")])), false⟩ ∧
    hasIfElseToConvert
        (mkChain ⟨some ⟨⟨0, 0⟩, ⟨6, 1⟩⟩, .binop "===" (.ident "x") (.strLit "a"),
            .block [.exprStmt (.ident "f")]⟩
          [⟨some ⟨⟨2, 7⟩, ⟨6, 1⟩⟩, .binop ">" (.ident "x") (.numLit 1),
            .block [.exprStmt (.ident "g")]⟩]
          (some (.block [.exprStmt (.ident "h")]))) ⟨⟨0, 0⟩, ⟨6, 1⟩⟩ = false :=
  convert_nonequality_link_unchanged
    ⟨some ⟨⟨0, 0⟩, ⟨6, 1⟩⟩, .binop "===" (.ident "x") (.strLit "a"),
      .block [.exprStmt (.ident "f")]⟩
    [⟨some ⟨⟨2, 7⟩, ⟨6, 1⟩⟩, .binop ">" (.ident "x") (.numLit 1),
      .block [.exprStmt (.ident "g")]⟩]
    (some (.block [.exprStmt (.ident "h")])) ⟨⟨0, 0⟩, ⟨6, 1⟩⟩ rfl
    ⟨⟨some ⟨⟨2, 7⟩, ⟨6, 1⟩⟩, .binop ">" (.ident "x") (.numLit 1),
      .block [.exprStmt (.ident "g")]⟩, by simp, rfl⟩
    (by decide)

theorem changes_convert_switch (node : Stmt)
    (h : IfElseToSwitch.changes node = true) :
    ∃ d cases, IfElseToSwitch.convert node = Stmt.switchStmt d cases := by
  cases node
  case ifStmt loc t c a =>
    simp only [IfElseToSwitch.changes, Bool.and_eq_true,
      Option.isSome_iff_exists] at h
    obtain ⟨⟨d, hd⟩, hflag⟩ := h
    refine ⟨d, (IfElseToSwitch.convertChain IfElseToSwitch.initialState t c a).cases, ?_⟩
    simp only [IfElseToSwitch.convert]
    rw [hd, hflag]
  all_goals simp [IfElseToSwitch.changes] at h

theorem changes_convert_id (node : Stmt)
    (h : IfElseToSwitch.changes node = false) :
    IfElseToSwitch.convert node = node := by
  cases node
  case ifStmt loc t c a =>
    simp only [IfElseToSwitch.changes, Bool.and_eq_false_iff] at h
    simp only [IfElseToSwitch.convert]
    rcases h with h | h
    · rcases hd : (IfElseToSwitch.convertChain IfElseToSwitch.initialState t c a).discriminant
        with _ | d
      · rfl
      · rw [hd] at h
        simp at h
    · rw [h]
      cases (IfElseToSwitch.convertChain IfElseToSwitch.initialState t c a).discriminant <;> rfl
  all_goals rfl

theorem fireIn_plug (sel : Selection) (nloc : Option SourceLocation) (nt : Expr)
    (nc : Stmt) (na : Option Stmt)
    (hmatch : sel.isInsideLoc nloc = true)
    (hchanges : IfElseToSwitch.changes (.ifStmt nloc nt nc na) = true) :
    ∀ ctx : SCtx, fireIn sel (SCtx.plug ctx (.ifStmt nloc nt nc na)) = true := by
  intro ctx
  induction ctx with
  | hole => simp [SCtx.plug, fireIn, hmatch, hchanges]
  | blockFrame pre rest post ih =>
    simp [SCtx.plug, fireIn, fireInList_append, fireInList, ih]
  | ifConsequentFrame loc t rest alt ih =>
    simp [SCtx.plug, fireIn, ih]
  | ifAlternateFrame loc t c rest ih =>
    simp [SCtx.plug, fireIn, fireInOpt, ih]

theorem transformList_append_mid (sel : Selection) (pre post : List Stmt)
    (s s' : Stmt) (b : Bool)
    (hpre : pre.all (fun x => !fireIn sel x) = true)
    (hpost : post.all (fun x => !fireIn sel x) = true)
    (hs : transformStmt sel s = (s', b)) :
    transformList sel (pre ++ s :: post) = (pre ++ s' :: post, b) := by
  induction pre with
  | nil =>
    simp [transformList, hs, transformList_quiet sel post hpost]
  | cons x xs ih =>
    simp only [List.all_cons, Bool.and_eq_true, Bool.not_eq_eq_eq_not,
      Bool.not_true] at hpre
    simp [transformList, noFire_transform sel x hpre.1, ih hpre.2]

theorem transform_plug (sel : Selection)
    (nloc : Option SourceLocation) (nt : Expr) (nc : Stmt) (na : Option Stmt)
    (hmatch : sel.isInsideLoc nloc = true)
    (hchanges : IfElseToSwitch.changes (.ifStmt nloc nt nc na) = true)
    (hnochild : hasChildWhichMatchesSelection sel (.ifStmt nloc nt nc na) = false) :
    ∀ ctx : SCtx, SCtx.sidesQuiet sel ctx = true →
      transformStmt sel (SCtx.plug ctx (.ifStmt nloc nt nc na)) =
        (SCtx.plug ctx (IfElseToSwitch.convert (.ifStmt nloc nt nc na)), true) := by
  intro ctx
  induction ctx with
  | hole =>
    intro _
    simp [SCtx.plug, transformStmt, hmatch, hchanges, hnochild]
  | blockFrame pre rest post ih =>
    intro hq
    simp only [SCtx.sidesQuiet, Bool.and_eq_true] at hq
    obtain ⟨⟨hpre, hpost⟩, hrest⟩ := hq
    have hmid := transformList_append_mid sel pre post _ _ true hpre hpost (ih hrest)
    simp [SCtx.plug, transformStmt, hmid]
  | ifConsequentFrame loc t rest alt ih =>
    intro hq
    simp only [SCtx.sidesQuiet, Bool.and_eq_true, Bool.not_eq_eq_eq_not,
      Bool.not_true] at hq
    obtain ⟨halt, hrest⟩ := hq
    have hplugfire := fireIn_plug sel nloc nt nc na hmatch hchanges rest
    simp [SCtx.plug, transformStmt, hasChildWhichMatchesSelection, hplugfire,
      ih hrest, transformOpt_quiet sel alt halt]
  | ifAlternateFrame loc t c rest ih =>
    intro hq
    simp only [SCtx.sidesQuiet, Bool.and_eq_true, Bool.not_eq_eq_eq_not,
      Bool.not_true] at hq
    obtain ⟨hc, hrest⟩ := hq
    have hplugfire := fireIn_plug sel nloc nt nc na hmatch hchanges rest
    simp [SCtx.plug, transformStmt, hasChildWhichMatchesSelection, fireInOpt,
      hplugfire, ih hrest, transformOpt, noFire_transform sel c hc]

/-- Counterexample to C4 as stated: the selection strictly contains the
source range of a convertible nested chain inside a convertible outer
chain (both chains convertible, nested fully inside the selection,
selection inside the outer), yet one invocation does not skip the outer
if-statement — it converts the outer chain, because the selection fits
inside the outer statement's range but not inside the nested one. -/
theorem updateCode_nested_selection_counterexample :
    IfElseToSwitch.changes
      (Stmt.ifStmt (some ⟨⟨0, 0⟩, ⟨4, 0⟩⟩)
        (.binop "===" (.ident "x") (.strLit "a"))
        (.block [Stmt.ifStmt (some ⟨⟨1, 2⟩, ⟨2, 3⟩⟩)
          (.binop "===" (.ident "y") (.strLit "b"))
          (.block [.exprStmt (.ident "f")]) none])
        (some (.block [.exprStmt (.ident "g")]))) = true ∧
    IfElseToSwitch.changes
      (Stmt.ifStmt (some ⟨⟨1, 2⟩, ⟨2, 3⟩⟩)
        (.binop "===" (.ident "y") (.strLit "b"))
        (.block [.exprStmt (.ident "f")]) none) = true ∧
    Selection.isInsideLoc ⟨⟨1, 0⟩, ⟨3, 0⟩⟩ (some ⟨⟨0, 0⟩, ⟨4, 0⟩⟩) = true ∧
    Selection.isInside (Selection.fromAST ⟨⟨1, 2⟩, ⟨2, 3⟩⟩) ⟨⟨1, 0⟩, ⟨3, 0⟩⟩ = true ∧
    updateCode
      (Stmt.ifStmt (some ⟨⟨0, 0⟩, ⟨4, 0⟩⟩)
        (.binop "===" (.ident "x") (.strLit "a"))
        (.block [Stmt.ifStmt (some ⟨⟨1, 2⟩, ⟨2, 3⟩⟩)
          (.binop "===" (.ident "y") (.strLit "b"))
          (.block [.exprStmt (.ident "f")]) none])
        (some (.block [.exprStmt (.ident "g")]))) ⟨⟨1, 0⟩, ⟨3, 0⟩⟩ =
      ⟨Stmt.switchStmt (.ident "x")
        [(some (.strLit "a"),
          [Stmt.ifStmt (some ⟨⟨1, 2⟩, ⟨2, 3⟩⟩)
            (.binop "===" (.ident "y") (.strLit "b"))
            (.block [.exprStmt (.ident "f")]) none, Stmt.breakStatement]),
         (none, [.exprStmt (.ident "g"), Stmt.breakStatement])], true⟩ :=
  ⟨rfl, rfl, rfl, rfl, rfl⟩

/-- C4 amended: for every selection lying within the source range of a
convertible nested chain, such that no conditional strictly inside the
nested chain matches the selection and would convert, and such that the
enclosing statement context hangs no other firing conditional off the
path to the nested chain, one invocation of the transformation keeps
every enclosing frame (in particular the outer if-statement) in place
and replaces exactly the nested chain with its switch statement. -/
theorem updateCode_converts_innermost_nested
    (sel : Selection) (nloc : Option SourceLocation) (nt : Expr) (nc : Stmt)
    (na : Option Stmt) (ctx : SCtx)
    (hmatch : sel.isInsideLoc nloc = true)
    (hchanges : IfElseToSwitch.changes (.ifStmt nloc nt nc na) = true)
    (hnochild : hasChildWhichMatchesSelection sel (.ifStmt nloc nt nc na) = false)
    (hquiet : SCtx.sidesQuiet sel ctx = true) :
    updateCode (SCtx.plug ctx (.ifStmt nloc nt nc na)) sel =
      ⟨SCtx.plug ctx (IfElseToSwitch.convert (.ifStmt nloc nt nc na)), true⟩ ∧
    ∃ d cases, IfElseToSwitch.convert (.ifStmt nloc nt nc na) =
      Stmt.switchStmt d cases := by
  refine ⟨?_, changes_convert_switch _ hchanges⟩
  rw [updateCode, transform_plug sel nloc nt nc na hmatch hchanges hnochild ctx hquiet]

/-- Witness for the amended C4: selecting exactly the nested chain
inside `if (x === 'a') { if (y === 'b') { f; } } else { g; }` converts
only the nested chain and keeps the outer if-statement. -/
theorem updateCode_converts_innermost_nested_witness :
    updateCode
        (SCtx.plug
          (SCtx.ifConsequentFrame (some ⟨⟨0, 0⟩, ⟨4, 0⟩⟩)
            (.binop "===" (.ident "x") (.strLit "a"))
            (SCtx.blockFrame [] SCtx.hole [])
            (some (.block [.exprStmt (.ident "g")])))
          (.ifStmt (some ⟨⟨1, 2⟩, ⟨2, 3⟩⟩)
            (.binop "===" (.ident "y") (.strLit "b"))
            (.block [.exprStmt (.ident "f")]) none)) ⟨⟨1, 2⟩, ⟨2, 3⟩⟩ =
      ⟨SCtx.plug
          (SCtx.ifConsequentFrame (some ⟨⟨0, 0⟩, ⟨4, 0⟩⟩)
            (.binop "===" (.ident "x") (.strLit "a"))
            (SCtx.blockFrame [] SCtx.hole [])
            (some (.block [.exprStmt (.ident "g")])))
          (IfElseToSwitch.convert
            (.ifStmt (some ⟨⟨1, 2⟩, ⟨2, 3⟩⟩)
              (.binop "===" (.ident "y") (.strLit "b"))
              (.block [.exprStmt (.ident "f")]) none)), true⟩ ∧
    ∃ d cases, IfElseToSwitch.convert
        (.ifStmt (some ⟨⟨1, 2⟩, ⟨2, 3⟩⟩)
          (.binop "===" (.ident "y") (.strLit "b"))
          (.block [.exprStmt (.ident "f")]) none) =
      Stmt.switchStmt d cases :=
  updateCode_converts_innermost_nested ⟨⟨1, 2⟩, ⟨2, 3⟩⟩
    (some ⟨⟨1, 2⟩, ⟨2, 3⟩⟩) (.binop "===" (.ident "y") (.strLit "b"))
    (.block [.exprStmt (.ident "f")]) none
    (SCtx.ifConsequentFrame (some ⟨⟨0, 0⟩, ⟨4, 0⟩⟩)
      (.binop "===" (.ident "x") (.strLit "a"))
      (SCtx.blockFrame [] SCtx.hole [])
      (some (.block [.exprStmt (.ident "g")])))
    rfl rfl rfl rfl

theorem transform_flag_false_eq (sel : Selection) :
    ∀ s : Stmt, (transformStmt sel s).2 = false → (transformStmt sel s).1 = s := by
  refine transformStmt.induct sel
    (fun s => (transformStmt sel s).2 = false → (transformStmt sel s).1 = s)
    (fun cs => (transformCases sel cs).2 = false → (transformCases sel cs).1 = cs)
    (fun l => (transformList sel l).2 = false → (transformList sel l).1 = l)
    (fun o => (transformOpt sel o).2 = false → (transformOpt sel o).1 = o)
    ?_ ?_ ?_ ?_ ?_ ?_ ?_ ?_ ?_ ?_ ?_
  · intro loc t c a hcond h
    simp [transformStmt, hcond] at h
  · intro loc t c a hcond ihc iha h
    simp only [Bool.not_eq_true] at hcond
    simp only [transformStmt, hcond, Bool.false_eq_true, if_false,
      Bool.or_eq_false_iff] at h
    simp only [transformStmt, hcond, Bool.false_eq_true, if_false]
    rw [ihc h.1, iha h.2]
  · intro body ih h
    simp only [transformStmt] at h ⊢
    rw [ih h]
  · intro d cases ih h
    simp only [transformStmt] at h ⊢
    rw [ih h]
  · intro t h1 h2 h3 h
    cases t
    case ifStmt => exact absurd rfl (h1 _ _ _ _)
    case block => exact absurd rfl (h2 _)
    case switchStmt => exact absurd rfl (h3 _ _)
    all_goals rfl
  · intro _
    rfl
  · intro s rest ihs ihrest h
    simp only [transformList, Bool.or_eq_false_iff] at h ⊢
    rw [ihs h.1, ihrest h.2]
  · intro _
    rfl
  · intro s ih h
    simp only [transformOpt] at h ⊢
    rw [ih h]
  · intro _
    rfl
  · intro t body rest ihb ihrest h
    simp only [transformCases, Bool.or_eq_false_iff] at h ⊢
    rw [ihb h.1, ihrest h.2]

theorem transform_flag_true_ne (sel : Selection) :
    ∀ s : Stmt, (transformStmt sel s).2 = true → (transformStmt sel s).1 ≠ s := by
  refine transformStmt.induct sel
    (fun s => (transformStmt sel s).2 = true → (transformStmt sel s).1 ≠ s)
    (fun cs => (transformCases sel cs).2 = true → (transformCases sel cs).1 ≠ cs)
    (fun l => (transformList sel l).2 = true → (transformList sel l).1 ≠ l)
    (fun o => (transformOpt sel o).2 = true → (transformOpt sel o).1 ≠ o)
    ?_ ?_ ?_ ?_ ?_ ?_ ?_ ?_ ?_ ?_ ?_
  · intro loc t c a hcond _
    have hch : IfElseToSwitch.changes (.ifStmt loc t c a) = true := by
      simp only [Bool.and_eq_true] at hcond
      exact hcond.2
    obtain ⟨d, cs, hsw⟩ := changes_convert_switch _ hch
    simp [transformStmt, hcond, hsw]
  · intro loc t c a hcond ihc iha h
    simp only [Bool.not_eq_true] at hcond
    simp only [transformStmt, hcond, Bool.false_eq_true, if_false] at h ⊢
    cases hrc : (transformStmt sel c).2 with
    | true =>
      have hne := ihc hrc
      intro heq
      injection heq with _ _ h3 _
      exact hne h3
    | false =>
      rw [hrc] at h
      simp only [Bool.false_or] at h
      have hne := iha h
      intro heq
      injection heq with _ _ _ h4
      exact hne h4
  · intro body ih h
    simp only [transformStmt] at h ⊢
    intro heq
    exact ih h (by injection heq)
  · intro d cases ih h
    simp only [transformStmt] at h ⊢
    intro heq
    exact ih h (by injection heq with _ h2)
  · intro t h1 h2 h3 h
    cases t
    case ifStmt => exact absurd rfl (h1 _ _ _ _)
    case block => exact absurd rfl (h2 _)
    case switchStmt => exact absurd rfl (h3 _ _)
    all_goals exact Bool.noConfusion h
  · intro h
    exact Bool.noConfusion h
  · intro s rest ihs ihrest h
    simp only [transformList] at h ⊢
    cases hrs : (transformStmt sel s).2 with
    | true =>
      have hne := ihs hrs
      intro heq
      injection heq with hh _
      exact hne hh
    | false =>
      rw [hrs] at h
      simp only [Bool.false_or] at h
      have hne := ihrest h
      intro heq
      injection heq with _ ht
      exact hne ht
  · intro h
    exact Bool.noConfusion h
  · intro s ih h
    simp only [transformOpt] at h ⊢
    intro heq
    exact ih h (by injection heq)
  · intro h
    exact Bool.noConfusion h
  · intro t body rest ihb ihrest h
    simp only [transformCases] at h ⊢
    cases hrb : (transformList sel body).2 with
    | true =>
      have hne := ihb hrb
      intro heq
      injection heq with hh _
      exact hne (congrArg Prod.snd hh)
    | false =>
      rw [hrb] at h
      simp only [Bool.false_or] at h
      have hne := ihrest h
      intro heq
      injection heq with _ ht
      exact hne ht

/-- C5 amended: `hasIfElseToConvert` is true exactly when running the
conversion changes the code.  (After a successful conversion, a
convertible conditional may remain at the same selection when an
enclosing chain is itself convertible — see the counterexample — so
re-applicability is not excluded in general.) -/
theorem hasIfElseToConvert_iff_changes_code (code : Stmt) (sel : Selection) :
    hasIfElseToConvert code sel = true ↔ (updateCode code sel).code ≠ code := by
  show (transformStmt sel code).2 = true ↔ (transformStmt sel code).1 ≠ code
  constructor
  · intro h
    exact transform_flag_true_ne sel code h
  · intro h
    cases hf : (transformStmt sel code).2 with
    | false => exact absurd (transform_flag_false_eq sel code hf) h
    | true => rfl

/-- Counterexample to C5 as stated: converting the nested chain of
`if (x === 'a') { if (y === 'b') { f; } } else { g; }` with the
selection on the nested chain succeeds (the code changes), yet
`hasIfElseToConvert` on the converted output with the same selection is
still true, because the enclosing chain is itself convertible. -/
theorem hasIfElseToConvert_after_success_counterexample :
    hasIfElseToConvert
      (Stmt.ifStmt (some ⟨⟨0, 0⟩, ⟨4, 0⟩⟩)
        (.binop "===" (.ident "x") (.strLit "a"))
        (.block [Stmt.ifStmt (some ⟨⟨1, 2⟩, ⟨2, 3⟩⟩)
          (.binop "===" (.ident "y") (.strLit "b"))
          (.block [.exprStmt (.ident "f")]) none])
        (some (.block [.exprStmt (.ident "g")]))) ⟨⟨1, 2⟩, ⟨2, 3⟩⟩ = true ∧
    hasIfElseToConvert
      (updateCode
        (Stmt.ifStmt (some ⟨⟨0, 0⟩, ⟨4, 0⟩⟩)
          (.binop "===" (.ident "x") (.strLit "a"))
          (.block [Stmt.ifStmt (some ⟨⟨1, 2⟩, ⟨2, 3⟩⟩)
            (.binop "===" (.ident "y") (.strLit "b"))
            (.block [.exprStmt (.ident "f")]) none])
          (some (.block [.exprStmt (.ident "g")]))) ⟨⟨1, 2⟩, ⟨2, 3⟩⟩).code
      ⟨⟨1, 2⟩, ⟨2, 3⟩⟩ = true :=
  ⟨rfl, rfl⟩

/-! ### Occurrence classifier theorems -/

/-- C7: on a non-computed member access `object.n`, the destructure
strategy yields declaration name `{ n }` with the printed object as
value, and the preserve strategy yields name `n` with the occurrence's
own code as value; for every computed (bracket-notation) member access
the result is the base (generic) variant's declaration, regardless of
the chosen strategy. -/
theorem memberExpression_toVariableDeclaration_spec
    (object : ONode) (n : String) (code : String) :
    MemberExpressionOccurrence.toVariableDeclaration
        (.member object (.ident n) false) DestructureStrategy.destructure code =
      ("\x7b " ++ n ++ " \x7d", generate object) ∧
    MemberExpressionOccurrence.toVariableDeclaration
        (.member object (.ident n) false) DestructureStrategy.preserve code =
      (n, code) ∧
    ∀ (obj prop : ONode) (strategy : DestructureStrategy) (code2 : String),
      MemberExpressionOccurrence.toVariableDeclaration (.member obj prop true)
          strategy code2 =
        Occurrence.toVariableDeclaration (.member obj prop true)
          (memberVariableName (.member obj prop true)) code2 := by
  refine ⟨?_, ?_, ?_⟩
  · simp [MemberExpressionOccurrence.toVariableDeclaration, memberVariableName]
  · simp [MemberExpressionOccurrence.toVariableDeclaration, memberVariableName,
      Occurrence.toVariableDeclaration]
  · intro obj prop strategy code2
    simp [MemberExpressionOccurrence.toVariableDeclaration]

/-- C8: a dismissed prompt (no choice) leaves the strategy at its
default (destructure) and the pipeline proceeds, producing the default
declaration; only a returned choice overrides the strategy; the
pipeline is total — dismissal never cancels the edit. -/
theorem askModificationDetails_dismissal_default :
    MemberExpressionOccurrence.askModificationDetails defaultDestructureStrategy
      none = DestructureStrategy.destructure ∧
    (∀ (node : ONode) (code : String),
      memberPipelineDeclaration node code none =
        MemberExpressionOccurrence.toVariableDeclaration node
          DestructureStrategy.destructure code) ∧
    (∀ (current : DestructureStrategy) (c : UserChoice),
      MemberExpressionOccurrence.askModificationDetails current (some c) = c.value) ∧
    (∀ current : DestructureStrategy,
      MemberExpressionOccurrence.askModificationDetails current none = current) :=
  ⟨rfl, fun _ _ => rfl, fun _ _ => rfl, fun _ => rfl⟩

theorem isBeforeOrEqual_line_le (p q : Position)
    (h : p.isBeforeOrEqual q = true) : p.line ≤ q.line := by
  simp only [Position.isBeforeOrEqual, decide_eq_true_eq] at h
  rcases h with h | ⟨h, _⟩
  · exact Nat.le_of_lt h
  · exact Nat.le_of_eq h

/-- C9: a user selection of a sub-range of one of a template literal's
text segments that spans more than one line is always rejected:
`PartialTemplateLiteralOccurrence.isValid` returns false, by the
multi-line check that precedes the construction probe, regardless of
content. -/
theorem partialTemplateLiteral_multiline_rejected
    (quasis : List Quasi) (loc : SourceLocation) (sel : Selection)
    (hwf : sel.start.isBeforeOrEqual sel.stop = true)
    (hseg : ∃ q ∈ quasis, ∃ lq, q.loc = some lq ∧
      sel.isInside (Selection.fromAST lq) = true ∧
      (Selection.fromAST lq).isInside (Selection.fromAST loc) = true)
    (hml : sel.isMultiLines = true) :
    PartialTemplateLiteralOccurrence.isValid quasis loc sel = false := by
  obtain ⟨q, _, lq, _, hin, hin2⟩ := hseg
  simp only [Selection.isInside, Selection.fromAST, Bool.and_eq_true] at hin hin2
  have l1 := isBeforeOrEqual_line_le _ _ hin.1
  have l2 := isBeforeOrEqual_line_le _ _ hin.2
  have l3 := isBeforeOrEqual_line_le _ _ hin2.1
  have l4 := isBeforeOrEqual_line_le _ _ hin2.2
  have l5 := isBeforeOrEqual_line_le _ _ hwf
  simp only [Selection.isMultiLines, decide_eq_true_eq] at hml
  have hlt : sel.start.line < sel.stop.line := Nat.lt_of_le_of_ne l5 hml
  have hne : loc.start.line ≠ loc.stop.line := by
    intro he
    have : loc.stop.line < loc.stop.line :=
      Nat.lt_of_le_of_lt (he ▸ Nat.le_trans l3 l1)
        (Nat.lt_of_lt_of_le hlt (Nat.le_trans l2 l4))
    exact Nat.lt_irrefl _ this
  have hm : (Selection.fromAST loc).isMultiLines = true := by
    simp [Selection.isMultiLines, Selection.fromAST, hne]
  rw [PartialTemplateLiteralOccurrence.isValid, hm]
  rfl

/-- Witness for C9: a two-line selection inside a two-line segment of a
two-line template literal is rejected. -/
theorem partialTemplateLiteral_multiline_rejected_witness :
    PartialTemplateLiteralOccurrence.isValid
      [⟨"ab", some ⟨⟨0, 1⟩, ⟨1, 3⟩⟩⟩] ⟨⟨0, 0⟩, ⟨1, 4⟩⟩ ⟨⟨0, 2⟩, ⟨1, 1⟩⟩ = false :=
  partialTemplateLiteral_multiline_rejected
    [⟨"ab", some ⟨⟨0, 1⟩, ⟨1, 3⟩⟩⟩] ⟨⟨0, 0⟩, ⟨1, 4⟩⟩ ⟨⟨0, 2⟩, ⟨1, 1⟩⟩
    (by decide)
    ⟨⟨"ab", some ⟨⟨0, 1⟩, ⟨1, 3⟩⟩⟩, by decide, ⟨⟨0, 1⟩, ⟨1, 3⟩⟩, rfl,
      by decide, by decide⟩
    (by decide)

/-- C10: when the feasibility probe of the partial-template-literal
variant fails internally — no segment of the template literal contains
the user's selection, or the located segment lacks a source range, both
of which make `selectedQuasi` fail — `createOccurrence` treats the
variant as inapplicable and returns the generic variant's
classification instead of surfacing an error. -/
theorem createOccurrence_probe_failure_generic
    (quasis : List Quasi) (expressions : List ONode) (parent : ONode)
    (loc : SourceLocation) (sel : Selection)
    (hfail : PartialTemplateLiteralOccurrence.selectedQuasi quasis sel = none) :
    createOccurrence (.tpl quasis expressions) parent loc sel = OccKind.generic := by
  have hsh : canBeShorthand (.tpl quasis expressions) parent = false := by
    cases parent <;> rfl
  have hval : PartialTemplateLiteralOccurrence.isValid quasis loc sel = false := by
    rw [PartialTemplateLiteralOccurrence.isValid, hfail]
    split <;> rfl
  simp [createOccurrence, hsh, classifyTemplateLiteral, hval]

/-- Witness for C10: a template literal whose only segment has no
source range — the probe cannot locate the selected segment, and the
occurrence is classified as generic. -/
theorem createOccurrence_probe_failure_generic_witness :
    createOccurrence (.tpl [⟨"ab", none⟩] []) ONode.otherNode
      ⟨⟨0, 0⟩, ⟨0, 5⟩⟩ ⟨⟨0, 1⟩, ⟨0, 2⟩⟩ = OccKind.generic :=
  createOccurrence_probe_failure_generic [⟨"ab", none⟩] [] ONode.otherNode
    ⟨⟨0, 0⟩, ⟨0, 5⟩⟩ ⟨⟨0, 1⟩, ⟨0, 2⟩⟩ rfl
